import Mathlib

/-!
Verification of the DragonBoat seating calculator (src/DragonBoat.py).

The core functions of the program are embedded shallowly:
weights are rationals (the Python floats carry exact decimal inputs here),
paddler records are structures of plain fields, and Python's stable
`sorted(..., key=weight, reverse=True)` is modelled by `List.insertionSort`
with the weight-descending relation, which is stable in exactly the same way
(equal keys keep their original relative order).
-/

namespace DragonBoat

/-- A roster record as built by the app's add-member form or CSV import:
keys name / weight / level / position / classification / role. -/
structure Member where
  name : String
  weight : ℚ
  level : String
  position : String
  classification : String
  role : String
  deriving DecidableEq

/-- Weight-descending comparison: `a` may come before `b` when
`a`'s weight is at least `b`'s.  `List.insertionSort wge` is then the stable
descending-by-weight sort, the behaviour of Python's
`sorted(members, key=weight, reverse=True)`. -/
def wge (a b : Member) : Prop := b.weight ≤ a.weight

instance : DecidableRel wge := fun a b => inferInstanceAs (Decidable (b.weight ≤ a.weight))

instance : IsTotal Member wge := ⟨fun a b => le_total b.weight a.weight⟩

instance : IsTrans Member wge := ⟨fun _ _ _ h h' => le_trans h' h⟩

/-- Model of Python's `sorted(others, key=weight, reverse=True)`:
stable sort, heaviest first, ties keeping original list order. -/
def pySortWeightDesc (l : List Member) : List Member := l.insertionSort wge

/-- Python's `str.lower()` on the app's ASCII field values, modelled
characterwise. -/
def pyLower (s : String) : String := String.mk (s.data.map Char.toLower)

/-- Helper `total_w` of src/DragonBoat.py line 211: sum of the members' weights. -/
def total_w (l : List Member) : ℚ := (l.map Member.weight).sum

/-- Loop body of `distribute_others_by_weight` (src lines 214-218): the
current paddler is appended to the bow list when its total weight is at most
the stroke list's, otherwise to the stroke list. -/
def placeStep (p : List Member × List Member) (o : Member) : List Member × List Member :=
  if total_w p.1 ≤ total_w p.2 then (p.1 ++ [o], p.2) else (p.1, p.2 ++ [o])

/-- Function `distribute_others_by_weight` (src lines 209-219): walk the no-preference
paddlers heaviest first and append each to the currently lighter side,
totals recomputed each iteration. -/
def distribute_others_by_weight (bow_list stroke_list : List Member)
    (others : List Member) : List Member × List Member :=
  (pySortWeightDesc others).foldl placeStep (bow_list, stroke_list)

/-- Left/right running difference of a partial side assignment:
bow total minus stroke total. -/
def sideDiff (p : List Member × List Member) : ℚ := total_w p.1 - total_w p.2

/-- Largest weight occurring in a list (0 for the empty list). -/
def maxWeight (l : List Member) : ℚ := l.foldr (fun m acc => max m.weight acc) 0

/-- The intermediate states of `distribute_others_by_weight`: the start state
followed by the state after each placement (placements happen in the
heaviest-first processed order). -/
def distributeStates (bow_list stroke_list others : List Member) :
    List (List Member × List Member) :=
  (pySortWeightDesc others).scanl placeStep (bow_list, stroke_list)

/-- The three role buckets of `build_side_with_roles`. -/
inductive Grp
  | pacer
  | engine
  | rocket
  deriving DecidableEq

/-- Bucket state while seats are being filled: the remaining (weight-sorted)
pacers, engines and rockets. -/
structure Buckets where
  pacers : List Member
  engines : List Member
  rockets : List Member
  deriving DecidableEq

def Buckets.get (bs : Buckets) : Grp → List Member
  | .pacer => bs.pacers
  | .engine => bs.engines
  | .rocket => bs.rockets

def Buckets.set (bs : Buckets) : Grp → List Member → Buckets
  | .pacer, l => { bs with pacers := l }
  | .engine, l => { bs with engines := l }
  | .rocket, l => { bs with rockets := l }

/-- Helper `pop_heaviest` of src lines 230-234: pop the front (heaviest,
since buckets are kept sorted descending) member of the first non-empty
group, returning `none` if every listed group is empty. -/
def pop_heaviest : List Grp → Buckets → Option Member × Buckets
  | [], bs => (none, bs)
  | g :: gs, bs =>
    match bs.get g with
    | [] => pop_heaviest gs bs
    | m :: rest => (some m, bs.set g rest)

/-- Front seats prefer pacers (src line 238). -/
def frontOrder : List Grp := [Grp.pacer, Grp.engine, Grp.rocket]

/-- Back seats prefer rockets (src line 242). -/
def backOrder : List Grp := [Grp.rocket, Grp.engine, Grp.pacer]

/-- Middle seats prefer engines (src line 246). -/
def midOrder : List Grp := [Grp.engine, Grp.pacer, Grp.rocket]

/-- Initial buckets of `build_side_with_roles` (src lines 224-226): members
whose role lowercases to `pacer`, to `rocket`, and everybody else
(the engines), each bucket sorted heaviest first, stably. -/
def sideBuckets (members : List Member) : Buckets where
  pacers := pySortWeightDesc (members.filter (fun m => pyLower m.role == "pacer"))
  engines := pySortWeightDesc (members.filter
    (fun m => !(pyLower m.role == "pacer") && !(pyLower m.role == "rocket")))
  rockets := pySortWeightDesc (members.filter (fun m => pyLower m.role == "rocket"))

/-- Function `build_side_with_roles` (src lines 222-249).  The Python loops have
constant bounds and are unrolled: seats 0 and 1 (front) pull with pacer
priority, then seats 9 and 8 (back, in that order) with rocket priority,
then seats 2..7 (middle) with engine priority; the output lists the filled
seats in seat order, unfilled seats omitted. -/
def build_side_with_roles (members : List Member) : List Member :=
  let s0 := sideBuckets members
  let t1 := pop_heaviest frontOrder s0
  let t2 := pop_heaviest frontOrder t1.2
  let t3 := pop_heaviest backOrder t2.2
  let t4 := pop_heaviest backOrder t3.2
  let t5 := pop_heaviest midOrder t4.2
  let t6 := pop_heaviest midOrder t5.2
  let t7 := pop_heaviest midOrder t6.2
  let t8 := pop_heaviest midOrder t7.2
  let t9 := pop_heaviest midOrder t8.2
  let t10 := pop_heaviest midOrder t9.2
  [t1.1, t2.1, t5.1, t6.1, t7.1, t8.1, t9.1, t10.1, t4.1, t3.1].filterMap id

/-- Spec-side pull (claim C2 wording): take the heaviest member still
available in the first bucket of the priority list that has members left;
with buckets kept sorted heaviest-first, that is the front member. -/
def specPull (bs : Buckets) : List Grp → Option Member × Buckets
  | [] => (none, bs)
  | g :: gs =>
    match bs.get g with
    | [] => specPull bs gs
    | m :: rest => (some m, bs.set g rest)

/-- Spec-side slot schedule (claim C2 wording): slots 1 and 2 pull from
Pacers then Engines then Rockets; slots 10 then 9 pull from Rockets then
Engines then Pacers; slots 3 through 8 pull from Engines then Pacers then
Rockets. -/
def specSlots : List (Nat × List Grp) :=
  [(1, frontOrder), (2, frontOrder), (10, backOrder), (9, backOrder),
   (3, midOrder), (4, midOrder), (5, midOrder), (6, midOrder), (7, midOrder), (8, midOrder)]

/-- Seat packer as the spec describes it: process the slot schedule in
order, recording which member (if any) each slot received, then output the
received members in slot order 1..10, omitting unfilled slots. -/
def buildSideSpec (members : List Member) : List Member :=
  let final := specSlots.foldl
    (fun (acc : List (Nat × Option Member) × Buckets) sp =>
      let t := specPull acc.2 sp.2
      (acc.1 ++ [(sp.1, t.1)], t.2))
    ([], sideBuckets members)
  (List.range 10).filterMap (fun i => (final.1.lookup (i + 1)).bind id)

/-- Multiset of an optional pull result. -/
def optMS : Option Member → Multiset Member
  | none => 0
  | some m => {m}

/-- Multiset of all members remaining in the buckets. -/
def Buckets.toMS (bs : Buckets) : Multiset Member :=
  (bs.pacers : Multiset Member) + (bs.engines : Multiset Member)
    + (bs.rockets : Multiset Member)

/-- Placement rule in the spec's words (claims C3/C10): the paddler goes to
whichever side currently has the strictly smaller total; at equal totals the
Bow side receives it (the completion claim C10 records). -/
def specPlace (p : List Member × List Member) (o : Member) : List Member × List Member :=
  if total_w p.2 < total_w p.1 then (p.1, p.2 ++ [o]) else (p.1 ++ [o], p.2)

/-- One row of the seating-assignment table built by the Assign Seating
handler (src lines 612 and 615). -/
structure AssignRow where
  seat : Nat
  side : String
  name : String
  weight : ℚ
  level : String
  classification : String
  role : String
  deriving DecidableEq

/-- The dictionary returned by `compute_balance_metrics`. -/
structure Metrics where
  left : ℚ
  right : ℚ
  front : ℚ
  back : ℚ
  total : ℚ
  diff_lr : ℚ
  diff_fb : ℚ
  deriving DecidableEq

/-- Function `compute_balance_metrics` (src lines 162-181).  The empty input returns
the falsy `{}`, modelled as `none`.  Python's truthiness test
`(r.get('Seat') or 0)` excludes rows whose seat number is 0. -/
def compute_balance_metrics (assign_rows : List AssignRow) : Option Metrics :=
  if assign_rows.isEmpty then none
  else
    let left := ((assign_rows.filter (fun r => pyLower r.side == "bow")).map
      AssignRow.weight).sum
    let right := ((assign_rows.filter (fun r => pyLower r.side == "stroke")).map
      AssignRow.weight).sum
    let front := ((assign_rows.filter
      (fun r => r.seat != 0 && decide (r.seat ≤ 5))).map AssignRow.weight).sum
    let back := ((assign_rows.filter
      (fun r => r.seat != 0 && decide (5 < r.seat))).map AssignRow.weight).sum
    some
      { left := left, right := right, front := front, back := back,
        total := left + right, diff_lr := left - right, diff_fb := front - back }

/-- Assignment-row constructor used by the handler: seat number, side label,
then the member's snapshotted fields. -/
def rowOf (n : Nat) (side : String) (m : Member) : AssignRow :=
  { seat := n, side := side, name := m.name, weight := m.weight,
    level := m.level, classification := m.classification, role := m.role }

/-- Everything the Assign Seating handler derives from the roster. -/
structure AssignResult where
  bow : List Member
  stroke : List Member
  rows : List AssignRow
  overflowReported : Bool
  deriving DecidableEq

/-- The Assign Seating handler (src lines 589-617): partition the roster by
stated side preference, hand the no-preference paddlers to
`distribute_others_by_weight`, pack each side with `build_side_with_roles`,
emit the per-seat rows pairing the two sides row by row, and report overflow
when a side received more than 10 paddlers. -/
def assignSeating (members : List Member) : AssignResult :=
  let bow_members := members.filter (fun m => pyLower m.position == "bow")
  let stroke_members := members.filter (fun m => pyLower m.position == "stroke")
  let others := members.filter
    (fun m => !(pyLower m.position == "bow") && !(pyLower m.position == "stroke"))
  let dist := distribute_others_by_weight bow_members stroke_members others
  let bow := build_side_with_roles dist.1
  let stroke := build_side_with_roles dist.2
  let maxRows := min 10 (max bow.length stroke.length)
  { bow := bow
    stroke := stroke
    rows := (List.range maxRows).flatMap (fun row =>
      ((bow.get? row).toList.map (rowOf (row + 1) "Bow"))
        ++ ((stroke.get? row).toList.map (rowOf (row + 1) "Stroke")))
    overflowReported := decide (10 < dist.1.length) || decide (10 < dist.2.length) }

/-- The balance suggestions the handler can emit (src lines 689-715). -/
inductive Suggestion
  | swapSides (heavyLabel lightLabel heavyName lightName : String) (heavyW lightW : ℚ)
  | moveFrontToBack
  | moveBackToFront
  | alreadyBalanced
  deriving DecidableEq

/-- Python's `max(rows, key=weight)`: the first row of maximal weight. -/
def pyMaxByWeight (rows : List AssignRow) : Option AssignRow :=
  match rows with
  | [] => none
  | r :: rs => some (rs.foldl (fun a b => if a.weight < b.weight then b else a) r)

/-- Python's `min(rows, key=weight)`: the first row of minimal weight. -/
def pyMinByWeight (rows : List AssignRow) : Option AssignRow :=
  match rows with
  | [] => none
  | r :: rs => some (rs.foldl (fun a b => if b.weight < a.weight then b else a) r)

/-- Bow-side rows of an assignment (src line 691). -/
def bowAssign (rows : List AssignRow) : List AssignRow :=
  rows.filter (fun r => pyLower r.side == "bow")

/-- Stroke-side rows of an assignment (src line 692). -/
def strokeAssign (rows : List AssignRow) : List AssignRow :=
  rows.filter (fun r => pyLower r.side == "stroke")

/-- The suggestions block of the handler (src lines 689-715): a swap
suggestion when `|diff_lr| > 5` and both sides are non-empty, a move
suggestion when `|diff_fb| > 5`, and the already-balanced message exactly
when nothing else was suggested.  The block only runs when the metrics
dictionary is truthy, i.e. on a non-empty assignment. -/
def balanceSuggestions (assign_rows : List AssignRow) : List Suggestion :=
  match compute_balance_metrics assign_rows with
  | none => []
  | some m =>
    let bow_assign := bowAssign assign_rows
    let stroke_assign := strokeAssign assign_rows
    let s1 : List Suggestion :=
      if |m.diff_lr| > 5 ∧ bow_assign ≠ [] ∧ stroke_assign ≠ [] then
        let heavy := if m.diff_lr > 0 then bow_assign else stroke_assign
        let light := if m.diff_lr > 0 then stroke_assign else bow_assign
        let hl := if m.diff_lr > 0 then "Bow" else "Stroke"
        let ll := if m.diff_lr > 0 then "Stroke" else "Bow"
        match pyMaxByWeight heavy, pyMinByWeight light with
        | some hp, some lp => [.swapSides hl ll hp.name lp.name hp.weight lp.weight]
        | _, _ => []
      else []
    let s2 : List Suggestion :=
      if |m.diff_fb| > 5 then
        (if m.diff_fb > 0 then [.moveFrontToBack] else [.moveBackToFront])
      else []
    let s := s1 ++ s2
    if s = [] then [.alreadyBalanced] else s

/-- Claim-side sums (C5 wording): Bow-side weight total. -/
def claimLeft (rows : List AssignRow) : ℚ := ((bowAssign rows).map AssignRow.weight).sum

/-- Claim-side sums (C5 wording): Stroke-side weight total. -/
def claimRight (rows : List AssignRow) : ℚ := ((strokeAssign rows).map AssignRow.weight).sum

/-- Claim-side sums (C5 wording): weights of seats numbered at most 5. -/
def claimFront (rows : List AssignRow) : ℚ :=
  ((rows.filter (fun r => decide (r.seat ≤ 5))).map AssignRow.weight).sum

/-- Claim-side sums (C5 wording): weights of seats numbered above 5. -/
def claimBack (rows : List AssignRow) : ℚ :=
  ((rows.filter (fun r => decide (5 < r.seat))).map AssignRow.weight).sum

/-- The swap suggestion in the amended C7 wording: it names the first
heaviest row of the heavier side and the first lightest row of the lighter
side. -/
def swapOf (rows : List AssignRow) (m : Metrics) : Suggestion :=
  let heavy := if m.diff_lr > 0 then bowAssign rows else strokeAssign rows
  let light := if m.diff_lr > 0 then strokeAssign rows else bowAssign rows
  let hp := (pyMaxByWeight heavy).getD ⟨0, "", "", 0, "", "", ""⟩
  let lp := (pyMinByWeight light).getD ⟨0, "", "", 0, "", "", ""⟩
  Suggestion.swapSides (if m.diff_lr > 0 then "Bow" else "Stroke")
    (if m.diff_lr > 0 then "Stroke" else "Bow") hp.name lp.name hp.weight lp.weight

def digitsVal (cs : List Char) : ℕ := cs.foldl (fun n c => 10 * n + (c.toNat - 48)) 0

/-- Unsigned part of `float(w)`: decimal digits with at most one point and
at least one digit overall. -/
def parseWeightCore (cs : List Char) (sgn : ℚ) : Option ℚ :=
  let ip := cs.takeWhile (fun c => c != '.')
  let rest := cs.dropWhile (fun c => c != '.')
  match rest with
  | [] =>
    if ip ≠ [] ∧ ip.all Char.isDigit then some (sgn * (digitsVal ip : ℚ)) else none
  | _ :: fp =>
    if (ip ≠ [] ∨ fp ≠ []) ∧ ip.all Char.isDigit ∧ fp.all Char.isDigit then
      some (sgn * ((digitsVal ip : ℚ) + (digitsVal fp : ℚ) / (10 : ℚ) ^ fp.length))
    else none

/-- Python's `float(w)` on a CSV cell, the success/failure part: an optional
sign, then decimal digits with at most one point (at least one digit
overall).  Anything else — in particular the empty string — fails, which the
importer turns into the 0.0 default. -/
def parseWeight (s : String) : Option ℚ :=
  match s.data with
  | [] => none
  | c :: rest =>
    if c = '-' then parseWeightCore rest (-1)
    else if c = '+' then parseWeightCore rest 1
    else parseWeightCore (c :: rest) 1

theorem pySortWeightDesc_perm (l : List Member) : List.Perm (pySortWeightDesc l) l :=
  List.perm_insertionSort wge l

theorem pySortWeightDesc_sorted (l : List Member) :
    (pySortWeightDesc l).Sorted wge :=
  List.sorted_insertionSort wge l

/-- Stability of the model sort: for each weight value, the paddlers of that
weight appear in their original relative order. -/
theorem pySortWeightDesc_stable (l : List Member) (q : ℚ) :
    (pySortWeightDesc l).filter (fun m => m.weight == q)
      = l.filter (fun m => m.weight == q) := by
  have hsub : List.Sublist (l.filter (fun m => m.weight == q)) (pySortWeightDesc l) := by
    refine List.sublist_insertionSort ?_ (List.filter_sublist l)
    refine List.pairwise_of_forall_mem_list ?_
    intro a ha b hb
    have ha' := List.of_mem_filter ha
    have hb' := List.of_mem_filter hb
    simp only [beq_iff_eq] at ha' hb'
    simp [wge, ha', hb']
  have hlen : ((pySortWeightDesc l).filter (fun m => m.weight == q)).length
      = (l.filter (fun m => m.weight == q)).length :=
    ((pySortWeightDesc_perm l).filter _).length_eq
  have hsub2 : List.Sublist (l.filter (fun m => m.weight == q))
      ((pySortWeightDesc l).filter (fun m => m.weight == q)) := by
    have := hsub.filter (fun m => m.weight == q)
    rwa [List.filter_filter, (by
      funext m
      simp [Bool.and_self] : (fun m => (m.weight == q) && (m.weight == q))
        = (fun m : Member => m.weight == q))] at this
  exact (hsub2.eq_of_length hlen.symm).symm

theorem total_w_append (l₁ l₂ : List Member) :
    total_w (l₁ ++ l₂) = total_w l₁ + total_w l₂ := by
  simp [total_w]

/-- The distribution loop only appends: each side list keeps its existing
members in place, gaining only elements drawn from the processed list. -/
theorem foldl_placeStep_appends (l : List Member) :
    ∀ p : List Member × List Member, ∃ addB addS,
      l.foldl placeStep p = (p.1 ++ addB, p.2 ++ addS) ∧
        (∀ m ∈ addB, m ∈ l) ∧ (∀ m ∈ addS, m ∈ l) := by
  induction l with
  | nil => exact fun p => ⟨[], [], by simp⟩
  | cons o l ih =>
    intro p
    obtain ⟨aB, aS, heq, hB, hS⟩ := ih (placeStep p o)
    by_cases h : total_w p.1 ≤ total_w p.2
    · have hps : placeStep p o = (p.1 ++ [o], p.2) := by simp [placeStep, h]
      refine ⟨o :: aB, aS, ?_, ?_, fun m hm => List.mem_cons_of_mem o (hS m hm)⟩
      · rw [List.foldl_cons, heq, hps]
        simp
      · intro m hm
        rcases List.mem_cons.mp hm with rfl | hm
        · exact List.mem_cons_self _ _
        · exact List.mem_cons_of_mem o (hB m hm)
    · have hps : placeStep p o = (p.1, p.2 ++ [o]) := by simp [placeStep, h]
      refine ⟨aB, o :: aS, ?_, fun m hm => List.mem_cons_of_mem o (hB m hm), ?_⟩
      · rw [List.foldl_cons, heq, hps]
        simp
      · intro m hm
        rcases List.mem_cons.mp hm with rfl | hm
        · exact List.mem_cons_self _ _
        · exact List.mem_cons_of_mem o (hS m hm)

theorem pop_heaviest_toMS : ∀ (order : List Grp) (bs : Buckets),
    optMS (pop_heaviest order bs).1 + (pop_heaviest order bs).2.toMS = bs.toMS
  | [], bs => by simp [pop_heaviest, optMS]
  | g :: gs, bs => by
    cases g
    case pacer =>
      cases hp : bs.pacers with
      | nil =>
        simpa [pop_heaviest, Buckets.get, hp] using pop_heaviest_toMS gs bs
      | cons m rest =>
        simp only [pop_heaviest, Buckets.get, hp, Buckets.set, optMS, Buckets.toMS]
        simp only [← Multiset.cons_coe, ← Multiset.singleton_add]
        abel
    case engine =>
      cases hp : bs.engines with
      | nil =>
        simpa [pop_heaviest, Buckets.get, hp] using pop_heaviest_toMS gs bs
      | cons m rest =>
        simp only [pop_heaviest, Buckets.get, hp, Buckets.set, optMS, Buckets.toMS]
        simp only [← Multiset.cons_coe, ← Multiset.singleton_add]
        abel
    case rocket =>
      cases hp : bs.rockets with
      | nil =>
        simpa [pop_heaviest, Buckets.get, hp] using pop_heaviest_toMS gs bs
      | cons m rest =>
        simp only [pop_heaviest, Buckets.get, hp, Buckets.set, optMS, Buckets.toMS]
        simp only [← Multiset.cons_coe, ← Multiset.singleton_add]
        abel

theorem pop_heaviest_none : ∀ (order : List Grp) (bs : Buckets),
    (pop_heaviest order bs).1 = none →
      (pop_heaviest order bs).2 = bs ∧ ∀ g ∈ order, bs.get g = []
  | [], bs => by simp [pop_heaviest]
  | g :: gs, bs => by
    intro h
    cases hp : bs.get g with
    | nil =>
      have h' : pop_heaviest (g :: gs) bs = pop_heaviest gs bs := by
        simp [pop_heaviest, hp]
      rw [h'] at h ⊢
      obtain ⟨h1, h2⟩ := pop_heaviest_none gs bs h
      refine ⟨h1, ?_⟩
      intro g' hg'
      rcases List.mem_cons.mp hg' with rfl | hg'
      · exact hp
      · exact h2 g' hg'
    | cons m rest =>
      exfalso
      have : (pop_heaviest (g :: gs) bs).1 = some m := by
        simp [pop_heaviest, hp]
      rw [h] at this
      exact Option.noConfusion this

/-- The three role buckets partition the side's members: as a multiset,
nothing is gained or lost by bucketing and sorting. -/
theorem sideBuckets_toMS (ms : List Member) :
    (sideBuckets ms).toMS = (ms : Multiset Member) := by
  have hcoe : ∀ l : List Member,
      ((pySortWeightDesc l : List Member) : Multiset Member) = (l : Multiset Member) :=
    fun l => Multiset.coe_eq_coe.mpr (pySortWeightDesc_perm l)
  unfold sideBuckets Buckets.toMS
  simp only [hcoe]
  have h1 := List.filter_append_perm (fun m : Member => pyLower m.role == "pacer") ms
  have h2 := List.filter_append_perm (fun m : Member => pyLower m.role == "rocket")
    (ms.filter (fun m => !(pyLower m.role == "pacer")))
  have hB : (ms.filter (fun m => !(pyLower m.role == "pacer"))).filter
      (fun m => pyLower m.role == "rocket") = ms.filter (fun m => pyLower m.role == "rocket") := by
    rw [List.filter_filter]
    refine List.filter_congr ?_
    intro m _
    by_cases hr : pyLower m.role = "rocket"
    · simp [hr]
    · simp [hr]
  have hC : (ms.filter (fun m => !(pyLower m.role == "pacer"))).filter
      (fun m => !(pyLower m.role == "rocket"))
      = ms.filter (fun m => !(pyLower m.role == "pacer") && !(pyLower m.role == "rocket")) := by
    rw [List.filter_filter]
    refine List.filter_congr ?_
    intro m _
    exact Bool.and_comm _ _
  rw [hB, hC] at h2
  have e2 : ((ms.filter (fun m => pyLower m.role == "rocket") : List Member) : Multiset Member)
      + ((ms.filter (fun m => !(pyLower m.role == "pacer")
          && !(pyLower m.role == "rocket")) : List Member) : Multiset Member)
      = ((ms.filter (fun m => !(pyLower m.role == "pacer")) : List Member) : Multiset Member) := by
    rw [Multiset.coe_add]
    exact Multiset.coe_eq_coe.mpr h2
  have e1 : ((ms.filter (fun m => pyLower m.role == "pacer") : List Member) : Multiset Member)
      + ((ms.filter (fun m => !(pyLower m.role == "pacer")) : List Member) : Multiset Member)
      = (ms : Multiset Member) := by
    rw [Multiset.coe_add]
    exact Multiset.coe_eq_coe.mpr h1
  rw [← e1, ← e2]
  abel

/-- The multiset underlying `filterMap id` is the sum of the optional
singletons. -/
theorem coe_filterMap_id : ∀ l : List (Option Member),
    ((l.filterMap id : List Member) : Multiset Member) = (l.map optMS).sum
  | [] => rfl
  | none :: l => by
    simpa [List.filterMap_cons, optMS] using coe_filterMap_id l
  | some m :: l => by
    simp only [List.filterMap_cons, id, List.map_cons, List.sum_cons, optMS]
    rw [← coe_filterMap_id l, ← Multiset.cons_coe, ← Multiset.singleton_add]

/-- One pull with a priority list covering all three buckets removes exactly
one member when any remain (truncated subtraction: an empty state stays
empty). -/
theorem pop_heaviest_card (order : List Grp) (hp : Grp.pacer ∈ order)
    (he : Grp.engine ∈ order) (hr : Grp.rocket ∈ order) (bs : Buckets) :
    Multiset.card (pop_heaviest order bs).2.toMS = Multiset.card bs.toMS - 1 := by
  cases h : (pop_heaviest order bs).1 with
  | some m =>
    have e := pop_heaviest_toMS order bs
    rw [h] at e
    have := congrArg Multiset.card e
    simp only [Multiset.card_add, optMS, Multiset.card_singleton] at this
    omega
  | none =>
    obtain ⟨h1, h2⟩ := pop_heaviest_none order bs h
    have hz : bs.toMS = 0 := by
      have hpn := h2 _ hp
      have hen := h2 _ he
      have hrn := h2 _ hr
      simp only [Buckets.get] at hpn hen hrn
      simp [Buckets.toMS, hpn, hen, hrn]
    rw [h1, hz]
    simp

/-- Seat packing both preserves members (each pulled member was in the input,
with multiplicity) and leaves exactly `length - 10` members unpulled. -/
theorem build_side_with_roles_split (ms : List Member) :
    ∃ rest : Multiset Member,
      ((build_side_with_roles ms : List Member) : Multiset Member) + rest
          = (ms : Multiset Member) ∧
        Multiset.card rest = ms.length - 10 := by
  unfold build_side_with_roles
  dsimp only
  generalize h1 : pop_heaviest frontOrder (sideBuckets ms) = t1
  generalize h2 : pop_heaviest frontOrder t1.2 = t2
  generalize h3 : pop_heaviest backOrder t2.2 = t3
  generalize h4 : pop_heaviest backOrder t3.2 = t4
  generalize h5 : pop_heaviest midOrder t4.2 = t5
  generalize h6 : pop_heaviest midOrder t5.2 = t6
  generalize h7 : pop_heaviest midOrder t6.2 = t7
  generalize h8 : pop_heaviest midOrder t7.2 = t8
  generalize h9 : pop_heaviest midOrder t8.2 = t9
  generalize h10 : pop_heaviest midOrder t9.2 = t10
  have e1 := pop_heaviest_toMS frontOrder (sideBuckets ms)
  have e2 := pop_heaviest_toMS frontOrder t1.2
  have e3 := pop_heaviest_toMS backOrder t2.2
  have e4 := pop_heaviest_toMS backOrder t3.2
  have e5 := pop_heaviest_toMS midOrder t4.2
  have e6 := pop_heaviest_toMS midOrder t5.2
  have e7 := pop_heaviest_toMS midOrder t6.2
  have e8 := pop_heaviest_toMS midOrder t7.2
  have e9 := pop_heaviest_toMS midOrder t8.2
  have e10 := pop_heaviest_toMS midOrder t9.2
  rw [h1] at e1
  rw [h2] at e2
  rw [h3] at e3
  rw [h4] at e4
  rw [h5] at e5
  rw [h6] at e6
  rw [h7] at e7
  rw [h8] at e8
  rw [h9] at e9
  rw [h10] at e10
  rw [sideBuckets_toMS] at e1
  have c1 := pop_heaviest_card frontOrder (by decide) (by decide) (by decide) (sideBuckets ms)
  have c2 := pop_heaviest_card frontOrder (by decide) (by decide) (by decide) t1.2
  have c3 := pop_heaviest_card backOrder (by decide) (by decide) (by decide) t2.2
  have c4 := pop_heaviest_card backOrder (by decide) (by decide) (by decide) t3.2
  have c5 := pop_heaviest_card midOrder (by decide) (by decide) (by decide) t4.2
  have c6 := pop_heaviest_card midOrder (by decide) (by decide) (by decide) t5.2
  have c7 := pop_heaviest_card midOrder (by decide) (by decide) (by decide) t6.2
  have c8 := pop_heaviest_card midOrder (by decide) (by decide) (by decide) t7.2
  have c9 := pop_heaviest_card midOrder (by decide) (by decide) (by decide) t8.2
  have c10 := pop_heaviest_card midOrder (by decide) (by decide) (by decide) t9.2
  rw [h1] at c1
  rw [h2] at c2
  rw [h3] at c3
  rw [h4] at c4
  rw [h5] at c5
  rw [h6] at c6
  rw [h7] at c7
  rw [h8] at c8
  rw [h9] at c9
  rw [h10] at c10
  have hcard0 : Multiset.card (sideBuckets ms).toMS = ms.length := by
    rw [sideBuckets_toMS, Multiset.coe_card]
  refine ⟨t10.2.toMS, ?_, ?_⟩
  · rw [coe_filterMap_id]
    simp only [List.map_cons, List.map_nil, List.sum_cons, List.sum_nil, add_zero]
    rw [← e1, ← e2, ← e3, ← e4, ← e5, ← e6, ← e7, ← e8, ← e9, ← e10]
    abel
  · rw [hcard0] at c1
    omega

/-- The packed side is drawn from the input members without duplication. -/
theorem build_side_subperm (ms : List Member) :
    List.Subperm (build_side_with_roles ms) ms := by
  obtain ⟨rest, he, _⟩ := build_side_with_roles_split ms
  rw [← Multiset.coe_le]
  exact le_iff_exists_add.mpr ⟨rest, he.symm⟩

/-- The packed side seats everybody up to the 10-seat cap. -/
theorem build_side_length (ms : List Member) :
    (build_side_with_roles ms).length = min ms.length 10 := by
  obtain ⟨rest, he, hc⟩ := build_side_with_roles_split ms
  have := congrArg Multiset.card he
  simp only [Multiset.card_add, Multiset.coe_card] at this
  omega

theorem specPull_eq_pop_heaviest : ∀ (bs : Buckets) (order : List Grp),
    specPull bs order = pop_heaviest order bs
  | _, [] => rfl
  | bs, g :: gs => by
    cases hp : bs.get g with
    | nil => simp [specPull, pop_heaviest, hp, specPull_eq_pop_heaviest bs gs]
    | cons m rest => simp [specPull, pop_heaviest, hp]

theorem build_side_eq_buildSideSpec (ms : List Member) :
    build_side_with_roles ms = buildSideSpec ms := by
  unfold build_side_with_roles buildSideSpec specSlots
  simp only [List.foldl_cons, List.foldl_nil, specPull_eq_pop_heaviest]
  rfl

theorem total_w_singleton (o : Member) : total_w [o] = o.weight := by
  simp [total_w]

/-- The spec's placement rule and the code's loop body agree: `bow ≤ stroke`
is the same test as `¬ (stroke < bow)`. -/
theorem specPlace_eq_placeStep : specPlace = placeStep := by
  funext p o
  unfold specPlace placeStep
  by_cases h : total_w p.1 ≤ total_w p.2
  · rw [if_neg (not_lt.mpr h), if_pos h]
  · rw [if_pos (not_le.mp h), if_neg h]

/-- Claim C3: `distribute_others_by_weight` processes the no-preference
paddlers in descending weight order with ties kept in original list order
(the processing order is a permutation of the input, sorted
weight-descending, and weight-for-weight in input order), appending each to
the side whose running total is currently smaller, totals recomputed after
every placement. -/
theorem distribute_others_by_weight_spec (bow_list stroke_list others : List Member) :
    ∃ ord : List Member,
      List.Perm ord others ∧ ord.Sorted wge ∧
        (∀ q : ℚ, ord.filter (fun m => m.weight == q)
            = others.filter (fun m => m.weight == q)) ∧
        distribute_others_by_weight bow_list stroke_list others
            = ord.foldl specPlace (bow_list, stroke_list) :=
  ⟨pySortWeightDesc others, pySortWeightDesc_perm others, pySortWeightDesc_sorted others,
    pySortWeightDesc_stable others, by
      rw [distribute_others_by_weight, specPlace_eq_placeStep]⟩

/-- Claim C10: when the two sides' running totals are exactly equal at the
moment of placement, the paddler goes to the Bow side — both for the loop
body and for the whole distribution of a single paddler. -/
theorem equal_totals_place_bow (b s : List Member) (o : Member)
    (h : total_w b = total_w s) :
    placeStep (b, s) o = (b ++ [o], s) ∧
      distribute_others_by_weight b s [o] = (b ++ [o], s) := by
  have h1 : placeStep (b, s) o = (b ++ [o], s) := by
    simp [placeStep, h.le]
  refine ⟨h1, ?_⟩
  have hs : pySortWeightDesc [o] = [o] := rfl
  rw [distribute_others_by_weight, hs, List.foldl_cons, List.foldl_nil, h1]

/-- Witness for C10 at a concrete empty-start state (totals 0 = 0). -/
theorem equal_totals_place_bow_witness :
    placeStep (([], []) : List Member × List Member) ⟨"Ann", 72, "A", "", "Alpha", "Engine"⟩
        = ([⟨"Ann", 72, "A", "", "Alpha", "Engine"⟩], []) ∧
      distribute_others_by_weight [] [] [⟨"Ann", 72, "A", "", "Alpha", "Engine"⟩]
        = ([⟨"Ann", 72, "A", "", "Alpha", "Engine"⟩], []) :=
  equal_totals_place_bow [] [] ⟨"Ann", 72, "A", "", "Alpha", "Engine"⟩ rfl

/-- One placement onto the currently lighter side keeps the absolute side
difference below any bound that dominates both the old difference and the
placed (non-negative) weight. -/
theorem abs_sideDiff_placeStep (p : List Member × List Member) (o : Member) (B : ℚ)
    (hw0 : 0 ≤ o.weight) (hwB : o.weight ≤ B) (hp : |sideDiff p| ≤ B) :
    |sideDiff (placeStep p o)| ≤ B := by
  rcases abs_le.mp hp with ⟨hl, hr⟩
  unfold sideDiff at hl hr
  unfold placeStep
  split_ifs with h
  · rw [sideDiff, total_w_append, total_w_singleton, abs_le]
    constructor <;> linarith
  · rw [sideDiff, total_w_append, total_w_singleton, abs_le]
    have h' := not_le.mp h
    constructor <;> linarith

theorem scanl_placeStep_bound : ∀ (l : List Member) (p : List Member × List Member) (B : ℚ),
    (∀ m ∈ l, 0 ≤ m.weight ∧ m.weight ≤ B) → |sideDiff p| ≤ B →
    ∀ st ∈ l.scanl placeStep p, |sideDiff st| ≤ B := by
  intro l
  induction l with
  | nil =>
    intro p B _ hp st hst
    simp only [List.scanl_nil, List.mem_singleton] at hst
    rwa [hst]
  | cons o l ih =>
    intro p B hm hp st hst
    rw [List.scanl_cons] at hst
    rcases List.mem_cons.mp hst with rfl | hst
    · exact hp
    · refine ih (placeStep p o) B (fun m hm' => hm m (List.mem_cons_of_mem o hm')) ?_ st hst
      have ho := hm o (List.mem_cons_self o l)
      exact abs_sideDiff_placeStep p o B ho.1 ho.2 hp

theorem weight_le_maxWeight : ∀ (l : List Member) (m : Member), m ∈ l → m.weight ≤ maxWeight l := by
  intro l
  induction l with
  | nil => intro m hm; cases hm
  | cons a l ih =>
    intro m hm
    rcases List.mem_cons.mp hm with rfl | hm
    · exact le_max_left _ _
    · exact le_trans (ih m hm) (le_max_right _ _)

/-- Claim C6, amended: along every run of the distribution loop, the absolute
running weight difference between the sides stays below the larger of the
initial absolute difference and the heaviest no-preference weight (the
original claim's bound — the weight of the single most recently placed
paddler — fails; see the counterexample). -/
theorem distribute_running_diff_bound (bow_list stroke_list others : List Member)
    (hw : ∀ m ∈ others, 0 ≤ m.weight) :
    ∀ st ∈ distributeStates bow_list stroke_list others,
      |sideDiff st| ≤ max |sideDiff (bow_list, stroke_list)| (maxWeight others) := by
  intro st hst
  refine scanl_placeStep_bound (pySortWeightDesc others) (bow_list, stroke_list) _ ?_
    (le_max_left _ _) st hst
  intro m hm
  have hm' : m ∈ others := (pySortWeightDesc_perm others).mem_iff.mp hm
  exact ⟨hw m hm', le_trans (weight_le_maxWeight others m hm') (le_max_right _ _)⟩

/-- Witness for the amended C6 bound at a concrete run: paddlers of weight
10 and 1 from an empty start; the state after both placements satisfies the
bound. -/
theorem distribute_running_diff_bound_witness :
    |sideDiff (([⟨"H", 10, "A", "", "Alpha", "Engine"⟩],
        [⟨"L", 1, "A", "", "Alpha", "Engine"⟩]) : List Member × List Member)|
      ≤ max |sideDiff (([], []) : List Member × List Member)|
          (maxWeight [⟨"H", 10, "A", "", "Alpha", "Engine"⟩,
            ⟨"L", 1, "A", "", "Alpha", "Engine"⟩]) :=
  distribute_running_diff_bound [] []
    [⟨"H", 10, "A", "", "Alpha", "Engine"⟩, ⟨"L", 1, "A", "", "Alpha", "Engine"⟩]
    (by with_unfolding_all decide)
    ([⟨"H", 10, "A", "", "Alpha", "Engine"⟩], [⟨"L", 1, "A", "", "Alpha", "Engine"⟩])
    (by with_unfolding_all decide)

/-- Claim C6 counterexample: with no-preference paddlers of weights 10 and 1
from an empty start, the state after the second placement has side
difference 9, exceeding the most recently placed weight 1 — the claim as
stated is false. -/
theorem distribute_recent_weight_bound_false :
    ¬ (∀ k, k < (pySortWeightDesc [⟨"H", 10, "A", "", "Alpha", "Engine"⟩,
          ⟨"L", 1, "A", "", "Alpha", "Engine"⟩]).length →
        |sideDiff ((distributeStates [] [] [⟨"H", 10, "A", "", "Alpha", "Engine"⟩,
            ⟨"L", 1, "A", "", "Alpha", "Engine"⟩]).getD (k + 1) ([], []))|
          ≤ ((pySortWeightDesc [⟨"H", 10, "A", "", "Alpha", "Engine"⟩,
              ⟨"L", 1, "A", "", "Alpha", "Engine"⟩]).getD k
                ⟨"H", 10, "A", "", "Alpha", "Engine"⟩).weight) := by
  intro h
  exact absurd (h 1 (by with_unfolding_all decide)) (by with_unfolding_all decide)

/-- Claim C1: a paddler with a stated Bow preference is never seated on the
Stroke side and conversely; the no-preference distribution step only ever
appends paddlers drawn from the no-preference group, never moving anyone
already assigned to a side. -/
theorem preference_sides_preserved (members : List Member) :
    (∀ m ∈ (assignSeating members).bow, pyLower m.position ≠ "stroke") ∧
      (∀ m ∈ (assignSeating members).stroke, pyLower m.position ≠ "bow") ∧
      (∀ bow_list stroke_list others : List Member, ∃ addB addS,
        distribute_others_by_weight bow_list stroke_list others
            = (bow_list ++ addB, stroke_list ++ addS) ∧
          (∀ m ∈ addB, m ∈ others) ∧ (∀ m ∈ addS, m ∈ others)) := by
  have hdist : ∀ bow_list stroke_list others : List Member, ∃ addB addS,
      distribute_others_by_weight bow_list stroke_list others
          = (bow_list ++ addB, stroke_list ++ addS) ∧
        (∀ m ∈ addB, m ∈ others) ∧ (∀ m ∈ addS, m ∈ others) := by
    intro b s others
    obtain ⟨aB, aS, heq, hB, hS⟩ := foldl_placeStep_appends (pySortWeightDesc others) (b, s)
    exact ⟨aB, aS, heq,
      fun m hm => (pySortWeightDesc_perm others).mem_iff.mp (hB m hm),
      fun m hm => (pySortWeightDesc_perm others).mem_iff.mp (hS m hm)⟩
  refine ⟨?_, ?_, hdist⟩
  · intro m hm
    simp only [assignSeating] at hm
    have hm2 := (build_side_subperm _).subset hm
    obtain ⟨aB, aS, heq, hB, _⟩ := hdist
      (members.filter (fun m => pyLower m.position == "bow"))
      (members.filter (fun m => pyLower m.position == "stroke"))
      (members.filter
        (fun m => !(pyLower m.position == "bow") && !(pyLower m.position == "stroke")))
    rw [heq] at hm2
    rcases List.mem_append.mp hm2 with hmb | hma
    · have := List.of_mem_filter hmb
      simp only [beq_iff_eq] at this
      rw [this]
      decide
    · have := List.of_mem_filter (hB m hma)
      simp only [Bool.and_eq_true, Bool.not_eq_true', beq_eq_false_iff_ne] at this
      exact this.2
  · intro m hm
    simp only [assignSeating] at hm
    have hm2 := (build_side_subperm _).subset hm
    obtain ⟨aB, aS, heq, _, hS⟩ := hdist
      (members.filter (fun m => pyLower m.position == "bow"))
      (members.filter (fun m => pyLower m.position == "stroke"))
      (members.filter
        (fun m => !(pyLower m.position == "bow") && !(pyLower m.position == "stroke")))
    rw [heq] at hm2
    rcases List.mem_append.mp hm2 with hmb | hma
    · have := List.of_mem_filter hmb
      simp only [beq_iff_eq] at this
      rw [this]
      decide
    · have := List.of_mem_filter (hS m hma)
      simp only [Bool.and_eq_true, Bool.not_eq_true', beq_eq_false_iff_ne] at this
      exact this.1

/-- Claim C2: the seat packer equals its specification: weight-sorted stable
role buckets (heaviest first, ties in input order — the three sorting
conjuncts), slots 1,2 pulling Pacer/Engine/Rocket, slots 10 then 9 pulling
Rocket/Engine/Pacer, slots 3-8 pulling Engine/Pacer/Rocket, with unfilled
slots omitted in slot order. -/
theorem build_side_with_roles_spec (ms : List Member) :
    build_side_with_roles ms = buildSideSpec ms ∧
      (∀ l : List Member, (pySortWeightDesc l).Sorted wge) ∧
      (∀ (l : List Member) (q : ℚ),
        (pySortWeightDesc l).filter (fun m => m.weight == q)
          = l.filter (fun m => m.weight == q)) ∧
      (∀ l : List Member, List.Perm (pySortWeightDesc l) l) :=
  ⟨build_side_eq_buildSideSpec ms, pySortWeightDesc_sorted, pySortWeightDesc_stable,
    pySortWeightDesc_perm⟩

/-- Claim C5: on a non-empty completed assignment (every seat numbered from
1), the metrics are exactly the claim's sums: left/right are the Bow/Stroke
side totals, front/back split at the fixed seat-5 boundary, and the deltas
are `left - right` and `front - back`. -/
theorem compute_balance_metrics_spec (assign_rows : List AssignRow)
    (hne : assign_rows ≠ []) (hseat : ∀ r ∈ assign_rows, 1 ≤ r.seat) :
    compute_balance_metrics assign_rows = some
      { left := claimLeft assign_rows, right := claimRight assign_rows,
        front := claimFront assign_rows, back := claimBack assign_rows,
        total := claimLeft assign_rows + claimRight assign_rows,
        diff_lr := claimLeft assign_rows - claimRight assign_rows,
        diff_fb := claimFront assign_rows - claimBack assign_rows } := by
  unfold compute_balance_metrics
  rw [if_neg (by simpa [List.isEmpty_iff] using hne)]
  have hfront : assign_rows.filter (fun r => r.seat != 0 && decide (r.seat ≤ 5))
      = assign_rows.filter (fun r => decide (r.seat ≤ 5)) := by
    refine List.filter_congr ?_
    intro r hr
    have h1 := hseat r hr
    have h0 : (r.seat != 0) = true := by simp; omega
    rw [h0, Bool.true_and]
  have hback : assign_rows.filter (fun r => r.seat != 0 && decide (5 < r.seat))
      = assign_rows.filter (fun r => decide (5 < r.seat)) := by
    refine List.filter_congr ?_
    intro r hr
    have h1 := hseat r hr
    have h0 : (r.seat != 0) = true := by simp; omega
    rw [h0, Bool.true_and]
  simp only [hfront, hback, claimLeft, claimRight, claimFront, claimBack,
    bowAssign, strokeAssign]

/-- Witness for C5 at a concrete two-row assignment. -/
theorem compute_balance_metrics_spec_witness :
    compute_balance_metrics [⟨1, "Bow", "A", 80, "B", "Alpha", "Engine"⟩,
        ⟨6, "Stroke", "B", 70, "B", "Bravo", "Engine"⟩] = some
      { left := claimLeft [⟨1, "Bow", "A", 80, "B", "Alpha", "Engine"⟩,
            ⟨6, "Stroke", "B", 70, "B", "Bravo", "Engine"⟩],
        right := claimRight [⟨1, "Bow", "A", 80, "B", "Alpha", "Engine"⟩,
            ⟨6, "Stroke", "B", 70, "B", "Bravo", "Engine"⟩],
        front := claimFront [⟨1, "Bow", "A", 80, "B", "Alpha", "Engine"⟩,
            ⟨6, "Stroke", "B", 70, "B", "Bravo", "Engine"⟩],
        back := claimBack [⟨1, "Bow", "A", 80, "B", "Alpha", "Engine"⟩,
            ⟨6, "Stroke", "B", 70, "B", "Bravo", "Engine"⟩],
        total := claimLeft [⟨1, "Bow", "A", 80, "B", "Alpha", "Engine"⟩,
              ⟨6, "Stroke", "B", 70, "B", "Bravo", "Engine"⟩]
            + claimRight [⟨1, "Bow", "A", 80, "B", "Alpha", "Engine"⟩,
              ⟨6, "Stroke", "B", 70, "B", "Bravo", "Engine"⟩],
        diff_lr := claimLeft [⟨1, "Bow", "A", 80, "B", "Alpha", "Engine"⟩,
              ⟨6, "Stroke", "B", 70, "B", "Bravo", "Engine"⟩]
            - claimRight [⟨1, "Bow", "A", 80, "B", "Alpha", "Engine"⟩,
              ⟨6, "Stroke", "B", 70, "B", "Bravo", "Engine"⟩],
        diff_fb := claimFront [⟨1, "Bow", "A", 80, "B", "Alpha", "Engine"⟩,
              ⟨6, "Stroke", "B", 70, "B", "Bravo", "Engine"⟩]
            - claimBack [⟨1, "Bow", "A", 80, "B", "Alpha", "Engine"⟩,
              ⟨6, "Stroke", "B", 70, "B", "Bravo", "Engine"⟩] } :=
  compute_balance_metrics_spec _ (by decide) (by decide)

/-- Claim C4: the packed side never exceeds 10 seats, repeats nobody (it is a
sub-permutation of its input), seats exactly `min n 10` of `n` paddlers, and
on a roster of 11 Bow-preferring paddlers the handler seats 10 on the Bow
side and reports the overflow. -/
theorem seat_packer_caps_and_reports (ms roster : List Member)
    (hall : ∀ m ∈ roster, pyLower m.position = "bow") (hlen : roster.length = 11) :
    (build_side_with_roles ms).length ≤ 10 ∧
      List.Subperm (build_side_with_roles ms) ms ∧
      (build_side_with_roles ms).length = min ms.length 10 ∧
      (assignSeating roster).bow.length = 10 ∧
      (assignSeating roster).overflowReported = true := by
  have hmin := build_side_length ms
  have hbowf : roster.filter (fun m => pyLower m.position == "bow") = roster :=
    List.filter_eq_self.mpr (fun m hm => by simp [hall m hm])
  have hstrkf : roster.filter (fun m => pyLower m.position == "stroke") = [] := by
    rw [List.filter_eq_nil_iff]
    intro m hm
    simp [hall m hm]
  have hothf : roster.filter
      (fun m => !(pyLower m.position == "bow") && !(pyLower m.position == "stroke")) = [] := by
    rw [List.filter_eq_nil_iff]
    intro m hm
    simp [hall m hm]
  have hd : distribute_others_by_weight roster [] [] = (roster, []) := rfl
  refine ⟨by omega, build_side_subperm ms, hmin, ?_, ?_⟩
  · simp only [assignSeating, hbowf, hstrkf, hothf, hd]
    rw [build_side_length roster, hlen]
    decide
  · simp only [assignSeating, hbowf, hstrkf, hothf, hd]
    rw [hlen]
    rfl

/-- Witness for C4 on a concrete 11-paddler all-Bow roster. -/
theorem seat_packer_caps_and_reports_witness :
    (build_side_with_roles (List.replicate 11 ⟨"P", 70, "A", "Bow", "Alpha", "Engine"⟩)).length
        ≤ 10 ∧
      List.Subperm
        (build_side_with_roles (List.replicate 11 ⟨"P", 70, "A", "Bow", "Alpha", "Engine"⟩))
        (List.replicate 11 ⟨"P", 70, "A", "Bow", "Alpha", "Engine"⟩) ∧
      (build_side_with_roles (List.replicate 11 ⟨"P", 70, "A", "Bow", "Alpha", "Engine"⟩)).length
          = min (List.replicate 11
              (⟨"P", 70, "A", "Bow", "Alpha", "Engine"⟩ : Member)).length 10 ∧
      (assignSeating (List.replicate 11 ⟨"P", 70, "A", "Bow", "Alpha", "Engine"⟩)).bow.length
          = 10 ∧
      (assignSeating
          (List.replicate 11 ⟨"P", 70, "A", "Bow", "Alpha", "Engine"⟩)).overflowReported
        = true :=
  seat_packer_caps_and_reports _ _ (by decide) (by decide)

theorem pyMaxByWeight_isSome (rows : List AssignRow) (h : rows ≠ []) :
    ∃ r, pyMaxByWeight rows = some r := by
  cases rows with
  | nil => exact absurd rfl h
  | cons a l => exact ⟨_, rfl⟩

theorem pyMinByWeight_isSome (rows : List AssignRow) (h : rows ≠ []) :
    ∃ r, pyMinByWeight rows = some r := by
  cases rows with
  | nil => exact absurd rfl h
  | cons a l => exact ⟨_, rfl⟩

/-- Claim C7, amended: on any non-empty assignment, the suggestions are: the
swap suggestion exactly when `|diff_lr| > 5` AND both sides hold at least one
seated paddler (naming first-heaviest of the heavier side, first-lightest of
the lighter); a move suggestion exactly when `|diff_fb| > 5` (front-heavy
moves back, back-heavy moves front, no paddler named); and the single
already-balanced message exactly when nothing else was emitted. -/
theorem balanceSuggestions_spec (assign_rows : List AssignRow) (m : Metrics)
    (hm : compute_balance_metrics assign_rows = some m) :
    balanceSuggestions assign_rows =
      (let s1 := if |m.diff_lr| > 5 ∧ bowAssign assign_rows ≠ [] ∧ strokeAssign assign_rows ≠ []
        then [swapOf assign_rows m] else []
       let s2 := if |m.diff_fb| > 5
        then (if m.diff_fb > 0 then [Suggestion.moveFrontToBack]
          else [Suggestion.moveBackToFront])
        else []
       if s1 ++ s2 = [] then [Suggestion.alreadyBalanced] else s1 ++ s2) := by
  unfold balanceSuggestions
  rw [hm]
  by_cases hc : |m.diff_lr| > 5 ∧ bowAssign assign_rows ≠ [] ∧ strokeAssign assign_rows ≠ []
  · have hheavy : (if m.diff_lr > 0 then bowAssign assign_rows
        else strokeAssign assign_rows) ≠ [] := by
      rcases hc with ⟨_, hb, hs⟩
      by_cases hd : m.diff_lr > 0
      · simpa [hd] using hb
      · simpa [hd] using hs
    have hlight : (if m.diff_lr > 0 then strokeAssign assign_rows
        else bowAssign assign_rows) ≠ [] := by
      rcases hc with ⟨_, hb, hs⟩
      by_cases hd : m.diff_lr > 0
      · simpa [hd] using hs
      · simpa [hd] using hb
    obtain ⟨hp, hhp⟩ := pyMaxByWeight_isSome _ hheavy
    obtain ⟨lp, hlp⟩ := pyMinByWeight_isSome _ hlight
    simp only [swapOf, if_pos hc, hhp, hlp, Option.getD_some]
  · simp only [if_neg hc]

/-- Witness for the amended C7 on a two-row assignment with both sides
present and a 50 kg left/right imbalance. -/
theorem balanceSuggestions_spec_witness :
    balanceSuggestions [⟨1, "Bow", "A", 100, "B", "Alpha", "Engine"⟩,
        ⟨1, "Stroke", "B", 50, "B", "Bravo", "Engine"⟩] =
      (let s1 := if |(50 : ℚ)| > 5
            ∧ bowAssign [⟨1, "Bow", "A", 100, "B", "Alpha", "Engine"⟩,
                ⟨1, "Stroke", "B", 50, "B", "Bravo", "Engine"⟩] ≠ []
            ∧ strokeAssign [⟨1, "Bow", "A", 100, "B", "Alpha", "Engine"⟩,
                ⟨1, "Stroke", "B", 50, "B", "Bravo", "Engine"⟩] ≠ []
        then [swapOf [⟨1, "Bow", "A", 100, "B", "Alpha", "Engine"⟩,
            ⟨1, "Stroke", "B", 50, "B", "Bravo", "Engine"⟩]
            { left := 100, right := 50, front := 150, back := 0, total := 150,
              diff_lr := 50, diff_fb := 150 }] else []
       let s2 := if |(150 : ℚ)| > 5
        then (if (150 : ℚ) > 0 then [Suggestion.moveFrontToBack]
          else [Suggestion.moveBackToFront])
        else []
       if s1 ++ s2 = [] then [Suggestion.alreadyBalanced] else s1 ++ s2) :=
  balanceSuggestions_spec _
    { left := 100, right := 50, front := 150, back := 0, total := 150,
      diff_lr := 50, diff_fb := 150 }
    (by with_unfolding_all decide)

/-- Claim C7 counterexample: a single Bow paddler of 100 kg gives
`diff_lr = 100 > 5`, yet no swap suggestion is emitted (the Stroke side is
empty); the output is just the front-heavy move suggestion, so the claim's
"a swap suggestion is emitted whenever `|diff_lr| > 5`" is false as stated. -/
theorem balanceSuggestions_missing_swap :
    (compute_balance_metrics [⟨1, "Bow", "Solo", 100, "A", "Alpha", "Engine"⟩]).map
        Metrics.diff_lr = some 100 ∧
      balanceSuggestions [⟨1, "Bow", "Solo", 100, "A", "Alpha", "Engine"⟩]
        = [Suggestion.moveFrontToBack] := by
  with_unfolding_all decide

theorem parseWeight_ne_empty (s : String) (q : ℚ) (h : parseWeight s = some q) :
    s ≠ "" := by
  intro he
  rw [he] at h
  exact Option.noConfusion h

/-- Witness for C1 on a concrete roster: the Bow-preferring paddler seated
on Bow is not Stroke-preferring, the Stroke-preferring one is not
Bow-preferring, and a concrete distribution only appends. -/
theorem preference_sides_preserved_witness :
    pyLower (⟨"A", 80, "A", "Bow", "Alpha", "Pacer"⟩ : Member).position ≠ "stroke" ∧
      pyLower (⟨"B", 70, "A", "Stroke", "Bravo", "Engine"⟩ : Member).position ≠ "bow" ∧
      (∃ addB addS,
        distribute_others_by_weight [] [] [⟨"C", 60, "A", "", "Alpha", "Rocket"⟩]
            = ([] ++ addB, [] ++ addS) ∧
          (∀ m ∈ addB, m ∈ [(⟨"C", 60, "A", "", "Alpha", "Rocket"⟩ : Member)]) ∧
          (∀ m ∈ addS, m ∈ [(⟨"C", 60, "A", "", "Alpha", "Rocket"⟩ : Member)])) :=
  ⟨(preference_sides_preserved [⟨"A", 80, "A", "Bow", "Alpha", "Pacer"⟩,
        ⟨"B", 70, "A", "Stroke", "Bravo", "Engine"⟩]).1
      ⟨"A", 80, "A", "Bow", "Alpha", "Pacer"⟩ (by with_unfolding_all decide),
    (preference_sides_preserved [⟨"A", 80, "A", "Bow", "Alpha", "Pacer"⟩,
        ⟨"B", 70, "A", "Stroke", "Bravo", "Engine"⟩]).2.1
      ⟨"B", 70, "A", "Stroke", "Bravo", "Engine"⟩ (by with_unfolding_all decide),
    (preference_sides_preserved []).2.2 [] [] [⟨"C", 60, "A", "", "Alpha", "Rocket"⟩]⟩

end DragonBoat
